import Mathlib

/-!
Verification of the brewery ETL pipeline (bronze ingestion, silver
transformation, gold aggregation, object-storage adapter).

Each definition is a shallow embedding of the corresponding Python
function, translated from the repository source:
* `fetchAllAux` / `fetch_all_breweries`  — `src/bronze/ingestion.py`,
  `BreweryAPIClient.fetch_all_breweries` (the `while True` pagination
  loop), with the HTTP transport abstracted as a function from page
  number to the list of records that page returns, and the unbounded
  `while` loop rendered with an explicit fuel parameter.
* the silver-layer record transformations — `src/silver/transformation.py`,
  `clean_and_transform`.
* the gold-layer grouped aggregation — `src/gold/aggregation.py`,
  `aggregate_by_type_and_location`.
* the storage adapter — `src/utils/gcs_storage.py`, `GcsStorage`.
-/

/-! ## Bronze layer: pagination loop of `fetch_all_breweries` -/

/-- The loop's stop condition, from `fetch_all_breweries`:
`if not breweries: break` and
`if len(breweries) < self.config.per_page: break`. -/
def stopsPagination {α : Type} (transport : Nat → List α) (perPage page : Nat) : Bool :=
  (transport page).isEmpty || decide ((transport page).length < perPage)

/-- The body of the `while True` loop in `fetch_all_breweries`.  Returns
the list of page numbers requested together with the accumulated
records (`all_breweries`).  The loop fetches page `page`; if the page is
empty it stops (the page's empty record list still contributes nothing
to the accumulator, as in the source where `break` precedes `extend`);
otherwise it extends the accumulator and stops if the page was shorter
than `per_page`, else continues with `page + 1`.  `fuel` bounds the
number of iterations so the function is total; the pagination theorem
shows the result is independent of `fuel` once `fuel` covers the first
stopping page. -/
def fetchAllAux {α : Type} (transport : Nat → List α) (perPage : Nat) :
    Nat → Nat → List Nat × List α
  | 0, _ => ([], [])
  | fuel + 1, page =>
    let breweries := transport page
    if breweries.isEmpty then ([page], breweries)
    else if breweries.length < perPage then ([page], breweries)
    else
      let rest := fetchAllAux transport perPage fuel (page + 1)
      (page :: rest.1, breweries ++ rest.2)

/-- Pages requested by `fetch_all_breweries`, in request order. -/
def requestedPages {α : Type} (transport : Nat → List α) (perPage fuel : Nat) : List Nat :=
  (fetchAllAux transport perPage fuel 1).1

/-- `fetch_all_breweries`: paginate starting at page 1 and accumulate
all fetched records. -/
def fetch_all_breweries {α : Type} (transport : Nat → List α) (perPage fuel : Nat) : List α :=
  (fetchAllAux transport perPage fuel 1).2

lemma fetchAllAux_spec {α : Type} (t : Nat → List α) (perPage N : Nat)
    (hstop : stopsPagination t perPage N = true) (fuel : Nat) :
    ∀ page, 1 ≤ page → page ≤ N →
      (∀ q, q < N → page ≤ q → stopsPagination t perPage q = false) →
      N + 1 ≤ fuel + page →
      fetchAllAux t perPage fuel page =
        (List.range' page (N + 1 - page), (List.range' page (N + 1 - page)).flatMap t) := by
  induction fuel with
  | zero =>
    intro page _ h2 _ h4
    omega
  | succ fuel ih =>
    intro page h1 h2 hmin hfuel
    by_cases hpN : page = N
    · rw [hpN] at hmin ⊢
      have hone : N + 1 - N = 1 := by omega
      rw [hone]
      have hrange : List.range' N 1 = [N] := rfl
      rw [hrange]
      have hflat : ([N].flatMap t) = t N := by simp
      rw [hflat]
      unfold stopsPagination at hstop
      rcases Bool.or_eq_true_iff.mp hstop with hemp | hlt
      · show (if (t N).isEmpty then _ else _) = _
        rw [if_pos hemp]
      · show (if (t N).isEmpty then _ else _) = _
        by_cases hemp : (t N).isEmpty
        · rw [if_pos hemp]
        · rw [if_neg hemp, if_pos (of_decide_eq_true hlt)]
    · have hlt : page < N := lt_of_le_of_ne h2 hpN
      have hstop' := hmin page hlt le_rfl
      unfold stopsPagination at hstop'
      have hor := Bool.or_eq_false_iff.mp hstop'
      have hemp : (t page).isEmpty = false := hor.1
      have hlen : ¬ (t page).length < perPage := of_decide_eq_false hor.2
      have hrec := ih (page + 1) (by omega) (by omega)
        (fun q hq hq1 => hmin q hq (by omega)) (by omega)
      show (if (t page).isEmpty then _
            else if (t page).length < perPage then _ else _) = _
      rw [if_neg (by simp [hemp]), if_neg hlen]
      rw [hrec]
      have hn : N + 1 - page = (N - page) + 1 := by omega
      have hn2 : N + 1 - (page + 1) = N - page := by omega
      rw [hn, hn2, List.range'_succ]
      simp

/-- C1.  For a transport with a first stopping page `N` (the first page
that is empty or shorter than `perPage`), `fetch_all_breweries`
terminates (its value is the same for every sufficient fuel bound),
requests exactly pages `1, 2, …, N` in order — never a page past `N` —
and returns the concatenation of all fetched pages in order, so its
length is the sum of the per-page lengths. -/
theorem C1_fetch_all_pagination {α : Type} (t : Nat → List α) (perPage N fuel : Nat)
    (hN : 1 ≤ N) (hstop : stopsPagination t perPage N = true)
    (hfirst : ∀ q, q < N → 1 ≤ q → stopsPagination t perPage q = false)
    (hfuel : N ≤ fuel) :
    requestedPages t perPage fuel = List.range' 1 N
    ∧ fetch_all_breweries t perPage fuel = (List.range' 1 N).flatMap t
    ∧ (fetch_all_breweries t perPage fuel).length
        = ((List.range' 1 N).map (fun p => (t p).length)).sum := by
  have h := fetchAllAux_spec t perPage N hstop fuel 1 le_rfl hN
    (fun q hq hq1 => hfirst q hq hq1) (by omega)
  have hone : N + 1 - 1 = N := by omega
  rw [hone] at h
  refine ⟨?_, ?_, ?_⟩
  · unfold requestedPages
    rw [h]
  · unfold fetch_all_breweries
    rw [h]
  · unfold fetch_all_breweries
    rw [h]
    simp [List.length_flatMap, Function.comp_def]

/-- Mocked transport for the pagination witness: page 1 is full
(2 records at page size 2), page 2 is short (1 record), later pages
are empty. -/
def pageFeedW : Nat → List Nat :=
  fun p => if p = 1 then [10, 20] else if p = 2 then [30] else []

/-- Witness for C1 at a concrete transport: the loop requests pages
1 and 2 only, returns the concatenation, and its length is the sum of
per-page lengths. -/
theorem C1_fetch_all_pagination_witness :
    (1 ≤ 2 ∧ stopsPagination pageFeedW 2 2 = true
      ∧ (∀ q, q < 2 → 1 ≤ q → stopsPagination pageFeedW 2 q = false) ∧ 2 ≤ 3)
    ∧ requestedPages pageFeedW 2 3 = [1, 2]
    ∧ fetch_all_breweries pageFeedW 2 3 = [10, 20, 30]
    ∧ (fetch_all_breweries pageFeedW 2 3).length
        = (([1, 2] : List Nat).map (fun p => (pageFeedW p).length)).sum := by
  have h := C1_fetch_all_pagination pageFeedW 2 2 3 (by decide) (by decide)
    (by decide) (by decide)
  refine ⟨⟨by decide, by decide, by decide, by decide⟩, ?_, ?_, ?_⟩
  · rw [h.1]; rfl
  · rw [h.2.1]; rfl
  · rw [h.2.2]; rfl

/-! ## Silver layer: `clean_and_transform` -/

/-- A raw brewery record as ingested from the API, with the schema of
`define_brewery_schema` (all fields nullable strings). -/
structure RawBrewery where
  id : Option String
  name : Option String
  brewery_type : Option String
  address_1 : Option String
  address_2 : Option String
  address_3 : Option String
  city : Option String
  state_province : Option String
  postal_code : Option String
  country : Option String
  longitude : Option String
  latitude : Option String
  phone : Option String
  website_url : Option String
  state : Option String
  street : Option String
deriving DecidableEq

/-- Spark's `trim`: strip space characters from both ends. -/
def sparkTrim (s : String) : String :=
  String.mk (((s.data.dropWhile (· = ' ')).reverse.dropWhile (· = ' ')).reverse)

/-- Spark's `upper`: uppercase every character. -/
def sparkUpper (s : String) : String :=
  String.mk (s.data.map Char.toUpper)

/-- Spark's `lower`: lowercase every character. -/
def sparkLower (s : String) : String :=
  String.mk (s.data.map Char.toLower)

/-- `regexp_replace(col, " ", "_")`: the pattern is the single space
character, so this is a character-wise replacement. -/
def replaceSpaceWithUnderscore (s : String) : String :=
  String.mk (s.data.map (fun c => if c = ' ' then '_' else c))

/-- Numeric value of a digit string (most significant first). -/
def digitsVal (cs : List Char) : Nat :=
  cs.foldl (fun a c => a * 10 + (c.toNat - 48)) 0

/-- Mantissa of a decimal literal: integer digits, optionally followed
by `.` and fraction digits (at least one digit overall).  Returns the
value and the unconsumed rest. -/
def splitMantissa (cs : List Char) : Option (Rat × List Char) :=
  let ip := cs.takeWhile Char.isDigit
  let rest := cs.dropWhile Char.isDigit
  match rest with
  | '.' :: rest2 =>
    let fp := rest2.takeWhile Char.isDigit
    let rest3 := rest2.dropWhile Char.isDigit
    if ip.isEmpty && fp.isEmpty then none
    else some ((digitsVal ip : Rat) + (digitsVal fp : Rat) / (10 ^ fp.length), rest3)
  | _ => if ip.isEmpty then none else some ((digitsVal ip : Rat), rest)

/-- Scale factor named by an exponent part (an optional sign followed
by at least one digit). -/
def parseExpScale (cs : List Char) : Option Rat :=
  match cs with
  | '+' :: ds =>
    if !ds.isEmpty && ds.all Char.isDigit then some ((10 : Rat) ^ digitsVal ds) else none
  | '-' :: ds =>
    if !ds.isEmpty && ds.all Char.isDigit then some (1 / (10 : Rat) ^ digitsVal ds) else none
  | ds =>
    if !ds.isEmpty && ds.all Char.isDigit then some ((10 : Rat) ^ digitsVal ds) else none

/-- A double value as produced by the engine's string cast: a finite
value (represented exactly as a rational), an infinity, or NaN. -/
inductive DoubleVal where
  | finite (q : Rat)
  | posInf
  | negInf
  | nan
deriving DecidableEq

/-- `Double.parseDouble` strips leading and trailing characters of code
at most 0x20 (spaces, tabs and other control characters). -/
def javaFloatTrim (s : String) : List Char :=
  ((s.data.dropWhile (fun c => c.toNat ≤ 32)).reverse.dropWhile
    (fun c => c.toNat ≤ 32)).reverse

/-- Strip one optional trailing `f`/`F`/`d`/`D` type suffix. -/
def stripFloatSuffix (cs : List Char) : List Char :=
  match cs.reverse with
  | c :: rest =>
    if c = 'f' ∨ c = 'F' ∨ c = 'd' ∨ c = 'D' then rest.reverse else cs
  | [] => cs

/-- Value of a hexadecimal digit. -/
def hexDigitVal (c : Char) : Nat :=
  if c.toNat ≤ 57 then c.toNat - 48
  else if c.toNat ≤ 70 then c.toNat - 55
  else c.toNat - 87

/-- Hexadecimal digit test. -/
def isHexDigitB (c : Char) : Bool :=
  (48 ≤ c.toNat && c.toNat ≤ 57)
  || (97 ≤ c.toNat && c.toNat ≤ 102)
  || (65 ≤ c.toNat && c.toNat ≤ 70)

/-- Numeric value of a hex-digit string (most significant first). -/
def hexVal (cs : List Char) : Nat :=
  cs.foldl (fun a c => a * 16 + hexDigitVal c) 0

/-- Unsigned decimal literal: mantissa with optional `e`/`E` decimal
exponent. -/
def parseDecTail (cs : List Char) : Option Rat :=
  match splitMantissa cs with
  | none => none
  | some (m, rest) =>
    match rest with
    | [] => some m
    | c :: rest2 =>
      if c = 'e' ∨ c = 'E' then (parseExpScale rest2).map (fun scale => m * scale)
      else none

/-- Unsigned hexadecimal significand (after the `0x`) with the required
`p`/`P` binary exponent. -/
def parseHexTail (cs : List Char) : Option Rat :=
  let ip := cs.takeWhile isHexDigitB
  let rest := cs.dropWhile isHexDigitB
  let fpRest : List Char × List Char :=
    match rest with
    | '.' :: rest2 => (rest2.takeWhile isHexDigitB, rest2.dropWhile isHexDigitB)
    | _ => ([], rest)
  let fp := fpRest.1
  if ip.isEmpty && fp.isEmpty then none
  else
    let m : Rat := (hexVal ip : Rat) + (hexVal fp : Rat) / (16 ^ fp.length)
    match fpRest.2 with
    | c :: rest3 =>
      if c = 'p' ∨ c = 'P' then
        match rest3 with
        | '+' :: ds =>
          if !ds.isEmpty && ds.all Char.isDigit then
            some (m * 2 ^ digitsVal ds)
          else none
        | '-' :: ds =>
          if !ds.isEmpty && ds.all Char.isDigit then
            some (m / 2 ^ digitsVal ds)
          else none
        | ds =>
          if !ds.isEmpty && ds.all Char.isDigit then
            some (m * 2 ^ digitsVal ds)
          else none
      else none
    | [] => none

/-- Java's `Double.parseDouble` on a trimmed character list: an
optional sign followed by `NaN`, `Infinity`, a decimal literal or a
hexadecimal literal, the numeric forms with an optional `f`/`F`/`d`/`D`
suffix. -/
def parseJavaDouble (cs : List Char) : Option DoubleVal :=
  let sgnBody : Bool × List Char :=
    match cs with
    | '-' :: r => (true, r)
    | '+' :: r => (false, r)
    | r => (false, r)
  let neg := sgnBody.1
  let body := sgnBody.2
  if body == "NaN".data then some DoubleVal.nan
  else if body == "Infinity".data then
    some (if neg then DoubleVal.negInf else DoubleVal.posInf)
  else
    let body2 := stripFloatSuffix body
    let num : Option Rat :=
      match body2 with
      | '0' :: x :: rest =>
        if x = 'x' ∨ x = 'X' then parseHexTail rest else parseDecTail body2
      | _ => parseDecTail body2
    num.map (fun m => DoubleVal.finite (if neg then -m else m))

/-- Spark's special-literal fallback in `Cast`: after a Java parse
failure it accepts, case-insensitively, `inf` and `infinity`
(optionally signed) and `nan`. -/
def parseSparkSpecial (cs : List Char) : Option DoubleVal :=
  let lower := cs.map Char.toLower
  if lower == "inf".data || lower == "infinity".data
      || lower == "+inf".data || lower == "+infinity".data then
    some DoubleVal.posInf
  else if lower == "-inf".data || lower == "-infinity".data then
    some DoubleVal.negInf
  else if lower == "nan".data then some DoubleVal.nan
  else none

/-- The engine's string-to-double cast used by
`F.col(...).cast(DoubleType())`: Java's `Double.parseDouble` (decimal
and hexadecimal literals with optional type suffix, `NaN`, signed
`Infinity`, surrounding whitespace and control characters ignored),
with Spark's case-insensitive `inf`/`infinity`/`nan` fallback.
Anything else yields null (`none`).  Finite values are represented
exactly as rationals. -/
def castDouble (s : String) : Option DoubleVal :=
  let cs := javaFloatTrim s
  match parseJavaDouble cs with
  | some v => some v
  | none => parseSparkSpecial cs

/-- `longitude_numeric`: cast the raw longitude when it is non-null and
non-empty, otherwise null. -/
def longitudeNumeric (r : RawBrewery) : Option DoubleVal :=
  match r.longitude with
  | none => none
  | some s => if s ≠ "" then castDouble s else none

/-- `latitude_numeric`: cast the raw latitude when it is non-null and
non-empty, otherwise null. -/
def latitudeNumeric (r : RawBrewery) : Option DoubleVal :=
  match r.latitude with
  | none => none
  | some s => if s ≠ "" then castDouble s else none

/-- `country_normalized`: "Unknown" for null/empty, else trimmed,
uppercased, spaces replaced with underscores. -/
def normalizeCountry (c : Option String) : String :=
  match c with
  | none => "Unknown"
  | some s => if s = "" then "Unknown"
      else replaceSpaceWithUnderscore (sparkUpper (sparkTrim s))

/-- `state_province_normalized`: "Unknown" for null/empty, else trimmed
with spaces replaced by underscores (case preserved). -/
def normalizeStateProvince (c : Option String) : String :=
  match c with
  | none => "Unknown"
  | some s => if s = "" then "Unknown"
      else replaceSpaceWithUnderscore (sparkTrim s)

/-- `brewery_type_normalized`: "unknown" for null/empty, else lowercased
and trimmed. -/
def normalizeBreweryType (c : Option String) : String :=
  match c with
  | none => "unknown"
  | some s => if s = "" then "unknown"
      else sparkLower (sparkTrim s)

/-- `has_coordinates`: both derived coordinate fields are non-null. -/
def hasCoordinates (r : RawBrewery) : Bool :=
  (longitudeNumeric r).isSome && (latitudeNumeric r).isSome

/-- `has_contact_info`: phone or website present and non-empty. -/
def hasContactInfo (r : RawBrewery) : Bool :=
  (match r.phone with | some s => s ≠ "" | none => false)
  || (match r.website_url with | some s => s ≠ "" | none => false)

/-- Spark's `concat_ws` on nullable columns: null inputs are skipped
entirely, the remaining strings are joined with the separator.  Returns
`none` when every input is null. -/
def concatWsSome (sep : String) : List (Option String) → Option String
  | [] => none
  | none :: rest => concatWsSome sep rest
  | some s :: rest =>
    match concatWsSome sep rest with
    | none => some s
    | some t => some (s ++ sep ++ t)

/-- Spark's `concat_ws`, which returns the empty string when all inputs
are null. -/
def concatWs (sep : String) (l : List (Option String)) : String :=
  (concatWsSome sep l).getD ""

/-- The address columns joined by `full_address`, in the order given in
the source: street, address_1, city, state_province, postal_code,
country. -/
def addressFields (r : RawBrewery) : List (Option String) :=
  [r.street, r.address_1, r.city, r.state_province, r.postal_code, r.country]

/-- `full_address` = `concat_ws(", ", street, address_1, city,
state_province, postal_code, country)`. -/
def fullAddress (r : RawBrewery) : String :=
  concatWs ", " (addressFields r)

/-- A curated record: the raw fields plus every column derived by
`clean_and_transform`. -/
structure CuratedBrewery where
  id : Option String
  name : Option String
  brewery_type : Option String
  address_1 : Option String
  address_2 : Option String
  address_3 : Option String
  city : Option String
  state_province : Option String
  postal_code : Option String
  country : Option String
  longitude : Option String
  latitude : Option String
  phone : Option String
  website_url : Option String
  state : Option String
  street : Option String
  processing_timestamp : Nat
  longitude_numeric : Option DoubleVal
  latitude_numeric : Option DoubleVal
  country_normalized : String
  state_province_normalized : String
  brewery_type_normalized : String
  has_coordinates : Bool
  has_contact_info : Bool
  full_address : String
deriving DecidableEq

/-- The per-row column derivations of `clean_and_transform` (everything
before the deduplication window).  `now` is the per-query value of
`F.current_timestamp()`, identical for every row of the invocation. -/
def transformRow (now : Nat) (r : RawBrewery) : CuratedBrewery :=
  { id := r.id, name := r.name, brewery_type := r.brewery_type,
    address_1 := r.address_1, address_2 := r.address_2, address_3 := r.address_3,
    city := r.city, state_province := r.state_province,
    postal_code := r.postal_code, country := r.country,
    longitude := r.longitude, latitude := r.latitude,
    phone := r.phone, website_url := r.website_url,
    state := r.state, street := r.street,
    processing_timestamp := now,
    longitude_numeric := longitudeNumeric r,
    latitude_numeric := latitudeNumeric r,
    country_normalized := normalizeCountry r.country,
    state_province_normalized := normalizeStateProvince r.state_province,
    brewery_type_normalized := normalizeBreweryType r.brewery_type,
    has_coordinates := hasCoordinates r,
    has_contact_info := hasContactInfo r,
    full_address := fullAddress r }

/-- The rows sharing identifier `i` (the window partition
`Window.partitionBy("id")`). -/
def partitionRows (rows : List CuratedBrewery) (i : Option String) : List CuratedBrewery :=
  rows.filter (fun r => r.id == i)

/-- The row `row_number() == 1` keeps from one partition ordered by
`F.desc("processing_timestamp")`: the first row (in input order)
attaining the maximal processing timestamp. -/
def pickLatest : List CuratedBrewery → Option CuratedBrewery
  | [] => none
  | r :: rs =>
    match pickLatest rs with
    | none => some r
    | some m => if m.processing_timestamp ≤ r.processing_timestamp then some r else some m

/-- The deduplication step of `clean_and_transform`: one row per
distinct identifier, the latest-processed row of each partition. -/
def dedupById (rows : List CuratedBrewery) : List CuratedBrewery :=
  ((rows.map (·.id)).dedup).filterMap (fun i => pickLatest (partitionRows rows i))

/-- `clean_and_transform`: derive all columns, then deduplicate by
identifier keeping the latest processing timestamp. -/
def clean_and_transform (now : Nat) (rows : List RawBrewery) : List CuratedBrewery :=
  dedupById (rows.map (transformRow now))

lemma pickLatest_eq_none_iff (l : List CuratedBrewery) : pickLatest l = none ↔ l = [] := by
  cases l with
  | nil => simp [pickLatest]
  | cons r rs =>
    simp only [pickLatest]
    constructor
    · intro h
      cases hp : pickLatest rs <;> rw [hp] at h <;> simp at h
      split at h <;> simp at h
    · intro h
      simp at h

lemma pickLatest_mem {l : List CuratedBrewery} {m : CuratedBrewery}
    (h : pickLatest l = some m) : m ∈ l := by
  induction l generalizing m with
  | nil => simp [pickLatest] at h
  | cons r rs ih =>
    have hred : pickLatest (r :: rs)
        = match pickLatest rs with
          | none => some r
          | some mm =>
            if mm.processing_timestamp ≤ r.processing_timestamp then some r else some mm := rfl
    rw [hred] at h
    cases hp : pickLatest rs with
    | none =>
      rw [hp] at h
      rw [← Option.some.inj h]
      exact List.mem_cons_self r rs
    | some mm =>
      rw [hp] at h
      have h' : (if mm.processing_timestamp ≤ r.processing_timestamp
          then some r else some mm) = some m := h
      by_cases hle : mm.processing_timestamp ≤ r.processing_timestamp
      · rw [if_pos hle] at h'
        rw [← Option.some.inj h']
        exact List.mem_cons_self r rs
      · rw [if_neg hle] at h'
        exact List.mem_cons_of_mem r (ih (Option.some.inj h' ▸ hp))

lemma pickLatest_ts_max {l : List CuratedBrewery} {m : CuratedBrewery}
    (h : pickLatest l = some m) :
    ∀ x ∈ l, x.processing_timestamp ≤ m.processing_timestamp := by
  induction l generalizing m with
  | nil => simp
  | cons r rs ih =>
    have hred : pickLatest (r :: rs)
        = match pickLatest rs with
          | none => some r
          | some mm =>
            if mm.processing_timestamp ≤ r.processing_timestamp then some r else some mm := rfl
    rw [hred] at h
    cases hp : pickLatest rs with
    | none =>
      rw [hp] at h
      have hrm : r = m := Option.some.inj h
      have hrs : rs = [] := (pickLatest_eq_none_iff rs).mp hp
      subst hrs
      intro x hx
      have hxr : x = r := by simpa using hx
      rw [hxr, hrm]
    | some mm =>
      rw [hp] at h
      have h' : (if mm.processing_timestamp ≤ r.processing_timestamp
          then some r else some mm) = some m := h
      by_cases hle : mm.processing_timestamp ≤ r.processing_timestamp
      · rw [if_pos hle] at h'
        have hrm : r = m := Option.some.inj h'
        intro x hx
        rcases List.mem_cons.mp hx with hx | hx
        · rw [hx, hrm]
        · exact le_trans (ih hp x hx) (hrm ▸ hle)
      · rw [if_neg hle] at h'
        have hmm : mm = m := Option.some.inj h'
        intro x hx
        rcases List.mem_cons.mp hx with hx | hx
        · rw [hx, ← hmm]
          omega
        · exact ih (hmm ▸ hp) x hx

lemma pickLatest_of_const_ts {l : List CuratedBrewery} {now : Nat}
    (h : ∀ x ∈ l, x.processing_timestamp = now) : pickLatest l = l.head? := by
  cases l with
  | nil => rfl
  | cons r rs =>
    have hred : pickLatest (r :: rs)
        = match pickLatest rs with
          | none => some r
          | some mm =>
            if mm.processing_timestamp ≤ r.processing_timestamp then some r else some mm := rfl
    rw [hred]
    cases hp : pickLatest rs with
    | none => rfl
    | some mm =>
      have hm' : mm ∈ rs := pickLatest_mem hp
      have h1 : mm.processing_timestamp = now := h mm (List.mem_cons_of_mem _ hm')
      have h2 : r.processing_timestamp = now := h r (List.mem_cons_self r rs)
      show (if mm.processing_timestamp ≤ r.processing_timestamp then some r else some mm)
      = (r :: rs).head?
      rw [if_pos (by omega)]
      rfl

lemma filterMap_section {κ ρ : Type} (ks : List κ) (F : κ → Option ρ) (g : ρ → κ)
    (h : ∀ k ∈ ks, ∃ m, F k = some m ∧ g m = k) : (ks.filterMap F).map g = ks := by
  induction ks with
  | nil => simp
  | cons k ks ih =>
    obtain ⟨m, hm, hg⟩ := h k (List.mem_cons_self k ks)
    rw [List.filterMap_cons, hm]
    simp only [List.map_cons, hg]
    rw [ih (fun k' hk' => h k' (List.mem_cons_of_mem _ hk'))]

lemma dedupById_ids (rows : List CuratedBrewery) :
    (dedupById rows).map (·.id) = (rows.map (·.id)).dedup := by
  apply filterMap_section
  intro k hk
  have hk' : k ∈ rows.map (·.id) := List.mem_dedup.mp hk
  obtain ⟨r, hr, hrid⟩ := List.mem_map.mp hk'
  have hrpart : r ∈ partitionRows rows k :=
    List.mem_filter.mpr ⟨hr, by simp [hrid]⟩
  have hne : partitionRows rows k ≠ [] := List.ne_nil_of_mem hrpart
  cases hpl : pickLatest (partitionRows rows k) with
  | none => exact absurd ((pickLatest_eq_none_iff _).mp hpl) hne
  | some m =>
    refine ⟨m, rfl, ?_⟩
    have hm := pickLatest_mem hpl
    have hbeq := (List.mem_filter.mp hm).2
    simpa using hbeq

lemma mem_of_mem_dedupById {rows : List CuratedBrewery} {c : CuratedBrewery}
    (h : c ∈ dedupById rows) : c ∈ rows := by
  unfold dedupById at h
  obtain ⟨i, _, hpick⟩ := List.mem_filterMap.mp h
  exact (List.mem_filter.mp (pickLatest_mem hpick)).1

/-- C2.  The deduplication step keeps exactly one row per distinct
identifier (the identifiers of the output are exactly the distinct
identifiers of the input, each once); in particular, for two records
sharing one identifier with different processing timestamps, the output
is exactly the row with the later timestamp. -/
theorem C2_dedup_one_row_per_id :
    (∀ rows : List CuratedBrewery,
      (dedupById rows).map (·.id) = (rows.map (·.id)).dedup)
    ∧ ∀ r1 r2 : CuratedBrewery, r1.id = r2.id →
        r1.processing_timestamp < r2.processing_timestamp →
        dedupById [r1, r2] = [r2] := by
  refine ⟨dedupById_ids, ?_⟩
  intro r1 r2 hid hts
  have hne : ¬ r2.processing_timestamp ≤ r1.processing_timestamp := by omega
  simp [dedupById, partitionRows, pickLatest, hid, hne]

/-- All-default curated record used by witnesses. -/
def mkCurated (i : Option String) (ts : Nat) : CuratedBrewery :=
  { id := i, name := none, brewery_type := none, address_1 := none,
    address_2 := none, address_3 := none, city := none,
    state_province := none, postal_code := none, country := none,
    longitude := none, latitude := none, phone := none,
    website_url := none, state := none, street := none,
    processing_timestamp := ts, longitude_numeric := none,
    latitude_numeric := none, country_normalized := "Unknown",
    state_province_normalized := "Unknown",
    brewery_type_normalized := "unknown", has_coordinates := false,
    has_contact_info := false, full_address := "" }

/-- Witness for C2: two concrete records with identifier "x" and
timestamps 1 < 2; deduplication keeps exactly the later one. -/
theorem C2_dedup_one_row_per_id_witness :
    (mkCurated (some "x") 1).id = (mkCurated (some "x") 2).id
    ∧ (mkCurated (some "x") 1).processing_timestamp
        < (mkCurated (some "x") 2).processing_timestamp
    ∧ dedupById [mkCurated (some "x") 1, mkCurated (some "x") 2]
        = [mkCurated (some "x") 2] :=
  ⟨rfl, by decide,
    C2_dedup_one_row_per_id.2 (mkCurated (some "x") 1) (mkCurated (some "x") 2)
      rfl (by decide)⟩

/-- Comma-space join of a list of segments (no skipping): the join
operation named by the spec's `full_address` sentence. -/
def joinWithAll (sep : String) : List String → String
  | [] => ""
  | [s] => s
  | s :: t :: rest => s ++ sep ++ joinWithAll sep (t :: rest)

/-- The address formation claim C3 describes, defined from the claim's
words for refutation: every segment contributes, a null or empty source
field contributing an empty segment, so the number and position of
separators is fixed. -/
def fullAddressAllSegments (r : RawBrewery) : String :=
  joinWithAll ", " ((addressFields r).map (fun o => o.getD ""))

lemma concatWsSome_eq (sep : String) (l : List (Option String)) :
    concatWsSome sep l =
      match l.filterMap (fun x => x) with
      | [] => none
      | x :: xs => some (joinWithAll sep (x :: xs)) := by
  induction l with
  | nil => rfl
  | cons o rest ih =>
    cases o with
    | none =>
      show concatWsSome sep rest = _
      rw [ih]
      rfl
    | some s =>
      show (match concatWsSome sep rest with
            | none => some s
            | some t => some (s ++ sep ++ t)) = _
      rw [ih]
      cases hr : rest.filterMap (fun x => x) with
      | nil => simp [hr, List.filterMap_cons, joinWithAll]
      | cons x xs => simp [hr, List.filterMap_cons, joinWithAll]

lemma filterMap_eq_map_getD (l : List (Option String)) (h : ∀ o ∈ l, o.isSome) :
    l.filterMap (fun x => x) = l.map (fun o => o.getD "") := by
  induction l with
  | nil => rfl
  | cons o rest ih =>
    cases o with
    | none => exact absurd (h none (List.mem_cons_self _ _)) (by simp)
    | some s =>
      rw [List.filterMap_cons, List.map_cons]
      simp only [Option.getD_some]
      rw [ih (fun o ho => h o (List.mem_cons_of_mem _ ho))]

/-- Counterexample to C3 at an explicit record whose street is null:
`concat_ws` skips null fields entirely, so the output has five
segments and four separators, not the fixed six-segment shape the claim
requires. -/
def rC3 : RawBrewery :=
  { id := none, name := none, brewery_type := none,
    address_1 := some "A", address_2 := none, address_3 := none,
    city := some "C", state_province := some "S", postal_code := some "P",
    country := some "X", longitude := none, latitude := none,
    phone := none, website_url := none, state := none, street := none }

/-- C3 as stated is false: for a record with a null street field the
derived address drops the segment and its separator instead of
contributing an empty segment. -/
theorem C3_full_address_counterexample :
    fullAddress rC3 = "A, C, S, P, X"
    ∧ fullAddressAllSegments rC3 = ", A, C, S, P, X"
    ∧ fullAddress rC3 ≠ fullAddressAllSegments rC3 := by
  refine ⟨by decide, by decide, by decide⟩

/-- C3 (amended).  `full_address` is the comma-space join, in the fixed
order street, address_1, city, state_province, postal_code, country, of
the *non-null* fields only: null fields are skipped entirely (no
separator), while non-null fields — including empty strings — each
contribute a segment, so when every field is non-null all six segments
appear with five separators. -/
theorem C3_full_address_amended (r : RawBrewery) :
    fullAddress r = joinWithAll ", " ((addressFields r).filterMap (fun x => x))
    ∧ ((∀ o ∈ addressFields r, o.isSome) →
        fullAddress r = joinWithAll ", " ((addressFields r).map (fun o => o.getD ""))) := by
  constructor
  · unfold fullAddress concatWs
    rw [concatWsSome_eq]
    cases h : (addressFields r).filterMap (fun x => x) with
    | nil => rfl
    | cons x xs => rfl
  · intro h
    unfold fullAddress concatWs
    rw [concatWsSome_eq, filterMap_eq_map_getD _ h]
    cases hm : (addressFields r).map (fun o => o.getD "") with
    | nil => rfl
    | cons x xs => rfl

/-- Record for the amended-C3 witness: street is the empty string (not
null), every other address field non-null, so all six segments appear
and the empty street contributes an empty leading segment. -/
def rC3b : RawBrewery :=
  { rC3 with street := some "" }

/-- Witness for the amended C3 at a record with all six address fields
non-null and an empty-string street: the empty segment is kept. -/
theorem C3_full_address_amended_witness :
    (∀ o ∈ addressFields rC3b, o.isSome)
    ∧ fullAddress rC3b
        = joinWithAll ", " ((addressFields rC3b).map (fun o => o.getD "")) :=
  ⟨by decide, (C3_full_address_amended rC3b).2 (by decide)⟩

/-- C4.  Normalization of country, region and category: null/empty
values map to the literals "Unknown"/"Unknown"/"unknown"; otherwise
country is trimmed, uppercased, with spaces replaced by underscores,
region is trimmed with spaces replaced by underscores (case preserved),
and category is trimmed and lowercased. -/
theorem C4_field_normalization (s : String) (hs : s ≠ "") :
    normalizeCountry none = "Unknown"
    ∧ normalizeCountry (some "") = "Unknown"
    ∧ normalizeCountry (some s) = replaceSpaceWithUnderscore (sparkUpper (sparkTrim s))
    ∧ normalizeStateProvince none = "Unknown"
    ∧ normalizeStateProvince (some "") = "Unknown"
    ∧ normalizeStateProvince (some s) = replaceSpaceWithUnderscore (sparkTrim s)
    ∧ normalizeBreweryType none = "unknown"
    ∧ normalizeBreweryType (some "") = "unknown"
    ∧ normalizeBreweryType (some s) = sparkLower (sparkTrim s) := by
  refine ⟨rfl, rfl, ?_, rfl, rfl, ?_, rfl, rfl, ?_⟩ <;>
    simp [normalizeCountry, normalizeStateProvince, normalizeBreweryType, hs]

/-- Witness for C4 at a concrete non-empty value with internal spaces
and surrounding whitespace. -/
theorem C4_field_normalization_witness :
    (" Rio de Janeiro " ≠ "")
    ∧ normalizeCountry (some " Rio de Janeiro ")
        = replaceSpaceWithUnderscore (sparkUpper (sparkTrim " Rio de Janeiro "))
    ∧ normalizeCountry (some " Rio de Janeiro ") = "RIO_DE_JANEIRO"
    ∧ normalizeStateProvince (some " Rio de Janeiro ") = "Rio_de_Janeiro"
    ∧ normalizeBreweryType (some " Micro ") = "micro" := by
  have h := C4_field_normalization " Rio de Janeiro " (by decide)
  exact ⟨by decide, h.2.2.1, by decide, by decide, by decide⟩

lemma longitudeNumeric_isSome_iff (r : RawBrewery) :
    (longitudeNumeric r).isSome = true
      ↔ ∃ s, r.longitude = some s ∧ s ≠ "" ∧ (castDouble s).isSome = true := by
  unfold longitudeNumeric
  cases h : r.longitude with
  | none => simp
  | some s =>
    by_cases hs : s = ""
    · simp [hs]
    · simp [hs]

lemma latitudeNumeric_isSome_iff (r : RawBrewery) :
    (latitudeNumeric r).isSome = true
      ↔ ∃ s, r.latitude = some s ∧ s ≠ "" ∧ (castDouble s).isSome = true := by
  unfold latitudeNumeric
  cases h : r.latitude with
  | none => simp
  | some s =>
    by_cases hs : s = ""
    · simp [hs]
    · simp [hs]

/-- The per-string property claim C5 asserts the coordinates satisfy,
defined from the claim's words for refutation: the field parses to a
*finite* number under the cast. -/
def parsesFiniteDouble (s : String) : Bool :=
  match castDouble s with
  | some (DoubleVal.finite _) => true
  | _ => false

/-- The flag claim C5 describes, defined from the claim's words for
refutation: both the longitude and latitude source fields parse to a
finite number. -/
def claimBothCoordsFinite (r : RawBrewery) : Bool :=
  (match r.longitude with
   | some s => parsesFiniteDouble s
   | none => false)
  && (match r.latitude with
   | some s => parsesFiniteDouble s
   | none => false)

/-- Record whose coordinate fields are the literal "NaN". -/
def rC5nan : RawBrewery :=
  { rC3 with longitude := some "NaN", latitude := some "NaN" }

/-- C5 as stated is false: at longitude = latitude = "NaN" the cast
yields a non-null double, so the program sets `has_coordinates = true`,
although "NaN" does not parse to a finite number. -/
theorem C5_has_coordinates_counterexample :
    hasCoordinates rC5nan = true
    ∧ claimBothCoordsFinite rC5nan = false
    ∧ hasCoordinates rC5nan ≠ claimBothCoordsFinite rC5nan :=
  ⟨by decide, by decide, by decide⟩

/-- C5 (amended).  `has_coordinates` is true iff both coordinate source
fields are non-null, non-empty and parse under the engine's
string-to-double cast — to *any* double value, not necessarily a finite
one ("NaN" and "Infinity" parse to non-null doubles and so count); a
record whose coordinate fields are null, empty strings, or unparseable
strings yields `has_coordinates = false` without raising an error
(every function here is total), and its derived numeric coordinate
fields are absent rather than zero. -/
theorem C5_has_coordinates_amended (r : RawBrewery) :
    (hasCoordinates r = true ↔
      ((∃ s, r.longitude = some s ∧ s ≠ "" ∧ (castDouble s).isSome = true)
        ∧ (∃ s, r.latitude = some s ∧ s ≠ "" ∧ (castDouble s).isSome = true)))
    ∧ ((r.longitude = none ∨ r.longitude = some "") →
        longitudeNumeric r = none ∧ hasCoordinates r = false)
    ∧ ((r.latitude = none ∨ r.latitude = some "") →
        latitudeNumeric r = none ∧ hasCoordinates r = false)
    ∧ (∀ s, r.longitude = some s → castDouble s = none →
        longitudeNumeric r = none ∧ hasCoordinates r = false)
    ∧ (∀ s, r.latitude = some s → castDouble s = none →
        latitudeNumeric r = none ∧ hasCoordinates r = false) := by
  refine ⟨?_, ?_, ?_, ?_, ?_⟩
  · rw [show hasCoordinates r
        = ((longitudeNumeric r).isSome && (latitudeNumeric r).isSome) from rfl]
    rw [Bool.and_eq_true]
    rw [longitudeNumeric_isSome_iff, latitudeNumeric_isSome_iff]
  · intro h
    have hlon : longitudeNumeric r = none := by
      unfold longitudeNumeric
      rcases h with h | h <;> rw [h] <;> simp
    refine ⟨hlon, ?_⟩
    unfold hasCoordinates
    rw [hlon]
    rfl
  · intro h
    have hlat : latitudeNumeric r = none := by
      unfold latitudeNumeric
      rcases h with h | h <;> rw [h] <;> simp
    refine ⟨hlat, ?_⟩
    unfold hasCoordinates
    rw [hlat]
    simp
  · intro s hs hc
    have hlon : longitudeNumeric r = none := by
      unfold longitudeNumeric
      rw [hs]
      by_cases hse : s = "" <;> simp [hse, hc]
    refine ⟨hlon, ?_⟩
    unfold hasCoordinates
    rw [hlon]
    rfl
  · intro s hs hc
    have hlat : latitudeNumeric r = none := by
      unfold latitudeNumeric
      rw [hs]
      by_cases hse : s = "" <;> simp [hse, hc]
    refine ⟨hlat, ?_⟩
    unfold hasCoordinates
    rw [hlat]
    simp

/-- Record whose coordinates are parseable decimal strings. -/
def rC5good : RawBrewery :=
  { rC3 with longitude := some "-87.25", latitude := some "43.5" }

/-- Record whose coordinate fields are empty strings. -/
def rC5bad : RawBrewery :=
  { rC3 with longitude := some "", latitude := some "" }

/-- Witness for the amended C5: parseable finite coordinates and
non-finite "NaN" coordinates both give `has_coordinates = true`;
empty-string coordinates give a null derived field and
`has_coordinates = false`. -/
theorem C5_has_coordinates_amended_witness :
    hasCoordinates rC5good = true
    ∧ hasCoordinates rC5nan = true
    ∧ (longitudeNumeric rC5bad = none ∧ hasCoordinates rC5bad = false) :=
  ⟨(C5_has_coordinates_amended rC5good).1.mpr
      ⟨⟨"-87.25", rfl, by decide, by decide⟩, ⟨"43.5", rfl, by decide, by decide⟩⟩,
    (C5_has_coordinates_amended rC5nan).1.mpr
      ⟨⟨"NaN", rfl, by decide, by decide⟩, ⟨"NaN", rfl, by decide, by decide⟩⟩,
    (C5_has_coordinates_amended rC5bad).2.1 (Or.inr rfl)⟩

/-- Input-order deduplication: one row per distinct identifier, keeping
the *first* row of each identifier partition in input order.  This is
what the timestamp window degenerates to when all timestamps tie. -/
def dedupFirstById (rows : List CuratedBrewery) : List CuratedBrewery :=
  ((rows.map (·.id)).dedup).filterMap (fun i => (partitionRows rows i).head?)

/-- C10.  Within one `clean_and_transform` invocation every row gets
the identical processing timestamp (the per-query `current_timestamp`
value), so the descending-timestamp deduplication ordering never
distinguishes duplicates of one run: the kept duplicate is decided
entirely by partition input order (the first occurrence), not by any
timestamp comparison. -/
theorem C10_same_run_timestamp_tie (now : Nat) (rows : List RawBrewery) :
    (∀ c ∈ rows.map (transformRow now), c.processing_timestamp = now)
    ∧ clean_and_transform now rows = dedupFirstById (rows.map (transformRow now))
    ∧ ∀ c ∈ clean_and_transform now rows, c.processing_timestamp = now := by
  have hts : ∀ c ∈ rows.map (transformRow now), c.processing_timestamp = now := by
    intro c hc
    obtain ⟨r, _, hr⟩ := List.mem_map.mp hc
    rw [← hr]
    rfl
  refine ⟨hts, ?_, ?_⟩
  · unfold clean_and_transform dedupById dedupFirstById
    apply List.filterMap_congr
    intro i _
    apply pickLatest_of_const_ts
    intro x hx
    exact hts x (List.mem_filter.mp hx).1
  · intro c hc
    exact hts c (mem_of_mem_dedupById hc)

/-- Raw record with identifier "x" for the C10 witness. -/
def rC10 : RawBrewery :=
  { rC3 with id := some "x" }

/-- Witness for C10 at a concrete single-row run. -/
theorem C10_same_run_timestamp_tie_witness :
    clean_and_transform 5 [rC10] = dedupFirstById ([rC10].map (transformRow 5))
    ∧ (transformRow 5 rC10 ∈ clean_and_transform 5 [rC10]
        ∧ (transformRow 5 rC10).processing_timestamp = 5) :=
  ⟨(C10_same_run_timestamp_tie 5 [rC10]).2.1,
    by decide,
    (C10_same_run_timestamp_tie 5 [rC10]).2.2 (transformRow 5 rC10) (by decide)⟩

/-! ## Gold layer: `aggregate_by_type_and_location` -/

/-- One row of the by-type-and-location aggregate. -/
structure TypeLocationAgg where
  country : String
  state_province : String
  brewery_type : String
  brewery_count : Nat
  with_coordinates : Nat
  with_contact_info : Nat
  unique_breweries : Nat
  percentage_of_location : Rat
  data_quality_score : Rat
deriving DecidableEq

/-- The `groupBy` key of `aggregate_by_type_and_location`. -/
def rowKey (r : CuratedBrewery) : String × String × String :=
  (r.country_normalized, r.state_province_normalized, r.brewery_type_normalized)

/-- One group's aggregate row: `count(*)`, the two conditional sums,
and `countDistinct("id")` (distinct non-null identifiers), before the
derived columns are added. -/
def aggBaseRow (rows : List CuratedBrewery) (k : String × String × String) :
    TypeLocationAgg :=
  let grp := rows.filter (fun r => rowKey r == k)
  { country := k.1, state_province := k.2.1, brewery_type := k.2.2,
    brewery_count := grp.length,
    with_coordinates := (grp.filter (·.has_coordinates)).length,
    with_contact_info := (grp.filter (·.has_contact_info)).length,
    unique_breweries := ((grp.filterMap (·.id)).dedup).length,
    percentage_of_location := 0,
    data_quality_score := 0 }

/-- The grouped aggregation: one row per distinct group key. -/
def aggBase (rows : List CuratedBrewery) : List TypeLocationAgg :=
  ((rows.map rowKey).dedup).map (aggBaseRow rows)

/-- The window sum `F.sum("brewery_count").over(Window.partitionBy
("country", "state_province"))`. -/
def locCountSum (aggs : List TypeLocationAgg) (c sp : String) : Nat :=
  ((aggs.filter (fun a => a.country == c && a.state_province == sp)).map
    (·.brewery_count)).sum

/-- `F.round(x, 2)`: round half-up to two decimal places. -/
def roundHalfUp2 (q : Rat) : Rat :=
  ((⌊q * 100 + 1 / 2⌋ : Int) : Rat) / 100

/-- Add the `percentage_of_location` column: row count over the
window's location total, times 100, rounded to 2 decimals. -/
def withPct (aggs : List TypeLocationAgg) : List TypeLocationAgg :=
  aggs.map (fun a =>
    { a with percentage_of_location :=
        roundHalfUp2 (((a.brewery_count : Rat)
          / (locCountSum aggs a.country a.state_province : Rat)) * 100) })

/-- Add the `data_quality_score` column:
`(with_coordinates + with_contact_info) / (brewery_count * 2) * 100`,
rounded to 2 decimals. -/
def withDqs (aggs : List TypeLocationAgg) : List TypeLocationAgg :=
  aggs.map (fun a =>
    { a with data_quality_score :=
        roundHalfUp2 ((((a.with_coordinates : Rat) + (a.with_contact_info : Rat))
          / ((a.brewery_count : Rat) * 2)) * 100) })

/-- Lexicographic string comparison by code point, the ordering the
engine's `orderBy` uses on string columns. -/
def strLtB : List Char → List Char → Bool
  | [], [] => false
  | [], _ :: _ => true
  | _ :: _, [] => false
  | c :: cs, d :: ds =>
    if c.toNat < d.toNat then true
    else if d.toNat < c.toNat then false
    else strLtB cs ds

/-- `strLtB` on strings. -/
def strLt (a b : String) : Bool := strLtB a.data b.data

/-- The final `orderBy("country", "state_province",
F.desc("brewery_count"))` ordering. -/
def aggOrd (a b : TypeLocationAgg) : Prop :=
  strLt a.country b.country = true
  ∨ (a.country = b.country
      ∧ (strLt a.state_province b.state_province = true
          ∨ (a.state_province = b.state_province
              ∧ b.brewery_count ≤ a.brewery_count)))

instance : DecidableRel aggOrd := fun a b =>
  inferInstanceAs (Decidable (strLt a.country b.country = true
    ∨ (a.country = b.country
        ∧ (strLt a.state_province b.state_province = true
            ∨ (a.state_province = b.state_province
                ∧ b.brewery_count ≤ a.brewery_count)))))

/-- `aggregate_by_type_and_location`: group, derive the percentage and
quality-score columns, sort. -/
def aggregate_by_type_and_location (rows : List CuratedBrewery) : List TypeLocationAgg :=
  List.insertionSort aggOrd (withDqs (withPct (aggBase rows)))

/-- The aggregate rows of one (country, state_province) location. -/
def locGroup (rows : List CuratedBrewery) (c sp : String) : List TypeLocationAgg :=
  (aggregate_by_type_and_location rows).filter
    (fun a => a.country == c && a.state_province == sp)

/-- Both derived columns of one aggregate row, packaged for reasoning
about `withDqs (withPct ·)` (the fields other than the two derived
columns are unchanged). -/
def derivedOf (base : List TypeLocationAgg) (b : TypeLocationAgg) : TypeLocationAgg :=
  { b with
    percentage_of_location :=
      roundHalfUp2 (((b.brewery_count : Rat)
        / (locCountSum base b.country b.state_province : Rat)) * 100),
    data_quality_score :=
      roundHalfUp2 ((((b.with_coordinates : Rat) + (b.with_contact_info : Rat))
        / ((b.brewery_count : Rat) * 2)) * 100) }

lemma withDqs_withPct_eq (base : List TypeLocationAgg) :
    withDqs (withPct base) = base.map (derivedOf base) := by
  unfold withDqs withPct
  rw [List.map_map]
  rfl

lemma agg_perm (rows : List CuratedBrewery) :
    (aggregate_by_type_and_location rows).Perm
      ((aggBase rows).map (derivedOf (aggBase rows))) := by
  unfold aggregate_by_type_and_location
  rw [withDqs_withPct_eq]
  exact List.perm_insertionSort _ _

lemma agg_mem {rows : List CuratedBrewery} {a : TypeLocationAgg} :
    a ∈ aggregate_by_type_and_location rows
      ↔ ∃ b ∈ aggBase rows, derivedOf (aggBase rows) b = a := by
  rw [List.Perm.mem_iff (agg_perm rows)]
  exact List.mem_map

lemma locCountSum_perm {l1 l2 : List TypeLocationAgg} (h : l1.Perm l2) (c sp : String) :
    locCountSum l1 c sp = locCountSum l2 c sp :=
  List.Perm.sum_eq (List.Perm.map _ (List.Perm.filter _ h))

lemma locCountSum_map_derived (base base2 : List TypeLocationAgg) (c sp : String) :
    locCountSum (base.map (derivedOf base2)) c sp = locCountSum base c sp := by
  unfold locCountSum
  rw [List.filter_map, List.map_map]
  rfl

lemma locCountSum_agg (rows : List CuratedBrewery) (c sp : String) :
    locCountSum (aggregate_by_type_and_location rows) c sp
      = locCountSum (aggBase rows) c sp := by
  rw [locCountSum_perm (agg_perm rows), locCountSum_map_derived]

lemma aggBase_count_pos {rows : List CuratedBrewery} {b : TypeLocationAgg}
    (h : b ∈ aggBase rows) : 1 ≤ b.brewery_count := by
  obtain ⟨k, hk, hbk⟩ := List.mem_map.mp h
  obtain ⟨r, hr, hrk⟩ := List.mem_map.mp (List.mem_dedup.mp hk)
  have hmem : r ∈ rows.filter (fun r => rowKey r == k) :=
    List.mem_filter.mpr ⟨hr, by simp [hrk]⟩
  have hpos := List.length_pos_of_mem hmem
  rw [← hbk]
  exact hpos

lemma aggBase_counts_le {rows : List CuratedBrewery} {b : TypeLocationAgg}
    (h : b ∈ aggBase rows) :
    b.with_coordinates ≤ b.brewery_count ∧ b.with_contact_info ≤ b.brewery_count := by
  obtain ⟨k, _, hbk⟩ := List.mem_map.mp h
  rw [← hbk]
  exact ⟨List.length_filter_le _ _, List.length_filter_le _ _⟩

lemma aggBase_le_locCountSum {rows : List CuratedBrewery} {b : TypeLocationAgg}
    (h : b ∈ aggBase rows) :
    b.brewery_count ≤ locCountSum (aggBase rows) b.country b.state_province := by
  have hmem : b ∈ (aggBase rows).filter
      (fun a => a.country == b.country && a.state_province == b.state_province) :=
    List.mem_filter.mpr ⟨h, by simp⟩
  exact List.le_sum_of_mem (List.mem_map.mpr ⟨b, hmem, rfl⟩)

lemma roundHalfUp2_near (q : Rat) : |roundHalfUp2 q - q| ≤ 1 / 200 := by
  unfold roundHalfUp2
  have h1 : ((⌊q * 100 + 1 / 2⌋ : Int) : Rat) ≤ q * 100 + 1 / 2 := Int.floor_le _
  have h2 : q * 100 + 1 / 2 < ((⌊q * 100 + 1 / 2⌋ : Int) : Rat) + 1 :=
    Int.lt_floor_add_one _
  rw [abs_le]
  constructor
  · linarith
  · linarith

lemma roundHalfUp2_nonneg {q : Rat} (h : 0 ≤ q) : 0 ≤ roundHalfUp2 q := by
  unfold roundHalfUp2
  have hf : (0 : Int) ≤ ⌊q * 100 + 1 / 2⌋ := by
    apply Int.le_floor.mpr
    push_cast
    linarith
  have hf' : (0 : Rat) ≤ ((⌊q * 100 + 1 / 2⌋ : Int) : Rat) := by exact_mod_cast hf
  linarith

lemma roundHalfUp2_le_100 {q : Rat} (h : q ≤ 100) : roundHalfUp2 q ≤ 100 := by
  unfold roundHalfUp2
  have hf : ⌊q * 100 + 1 / 2⌋ < (10001 : Int) := by
    apply Int.floor_lt.mpr
    push_cast
    linarith
  have hf' : ((⌊q * 100 + 1 / 2⌋ : Int) : Rat) ≤ 10000 := by
    have : ⌊q * 100 + 1 / 2⌋ ≤ (10000 : Int) := by omega
    exact_mod_cast this
  linarith

lemma sum_map_roundHalfUp2_near (xs : List Rat) :
    |(xs.map roundHalfUp2).sum - xs.sum| ≤ (xs.length : Rat) / 200 := by
  induction xs with
  | nil => simp
  | cons x xs ih =>
    simp only [List.map_cons, List.sum_cons, List.length_cons]
    have h1 := roundHalfUp2_near x
    calc |roundHalfUp2 x + (xs.map roundHalfUp2).sum - (x + xs.sum)|
        = |(roundHalfUp2 x - x) + ((xs.map roundHalfUp2).sum - xs.sum)| := by ring_nf
      _ ≤ |roundHalfUp2 x - x| + |(xs.map roundHalfUp2).sum - xs.sum| := abs_add _ _
      _ ≤ 1 / 200 + (xs.length : Rat) / 200 := add_le_add h1 ih
      _ = ((xs.length : Rat) + 1) / 200 := by ring
      _ = (((xs.length + 1 : Nat)) : Rat) / 200 := by push_cast; ring

/-- C7.  Every row's `percentage_of_location` is its count over the sum
of counts of its (country, state_province) group, times 100, rounded
half-up to 2 decimals; and within any populated (country,
state_province) group the percentages sum to 100 up to the accumulated
rounding tolerance (1/200 per row of the group). -/
theorem C7_percentage_of_location (rows : List CuratedBrewery) :
    (∀ a ∈ aggregate_by_type_and_location rows,
      a.percentage_of_location
        = roundHalfUp2 (((a.brewery_count : Rat)
            / (locCountSum (aggregate_by_type_and_location rows)
                a.country a.state_province : Rat)) * 100))
    ∧ ∀ c sp : String,
        (∃ a ∈ aggregate_by_type_and_location rows,
          a.country = c ∧ a.state_province = sp) →
        |((locGroup rows c sp).map (·.percentage_of_location)).sum - 100|
          ≤ ((locGroup rows c sp).length : Rat) / 200 := by
  constructor
  · intro a ha
    obtain ⟨b, hb, hba⟩ := agg_mem.mp ha
    rw [locCountSum_agg, ← hba]
    rfl
  · intro c sp hex
    obtain ⟨a, ha, hac, hasp⟩ := hex
    obtain ⟨b0, hb0, hb0a⟩ := agg_mem.mp ha
    set base := aggBase rows with hbase
    set q : TypeLocationAgg → Bool :=
      fun x => x.country == c && x.state_province == sp with hq
    have hperm : (locGroup rows c sp).Perm ((base.filter q).map (derivedOf base)) := by
      unfold locGroup
      have h1 := List.Perm.filter q (agg_perm rows)
      rw [List.filter_map] at h1
      exact h1
    have hsum : ((locGroup rows c sp).map (·.percentage_of_location)).sum
        = (((base.filter q).map (derivedOf base)).map (·.percentage_of_location)).sum :=
      List.Perm.sum_eq (List.Perm.map _ hperm)
    have hlen : (locGroup rows c sp).length = (base.filter q).length := by
      rw [List.Perm.length_eq hperm, List.length_map]
    set S : Nat := locCountSum base c sp with hS
    have hSdef : S = ((base.filter q).map (·.brewery_count)).sum := rfl
    have hmapeq : (((base.filter q).map (derivedOf base)).map (·.percentage_of_location))
        = ((base.filter q).map
            (fun b => ((b.brewery_count : Rat) / (S : Rat)) * 100)).map roundHalfUp2 := by
      rw [List.map_map, List.map_map]
      apply List.map_congr_left
      intro b hb
      have hbq := (List.mem_filter.mp hb).2
      have hbcsp : b.country = c ∧ b.state_province = sp := by
        simpa [hq] using hbq
      have hbc : b.country = c := hbcsp.1
      have hbsp : b.state_province = sp := hbcsp.2
      show (derivedOf base b).percentage_of_location = _
      unfold derivedOf
      simp only [hbc, hbsp]
      rfl
    have hb0c : b0.country = c := by
      rw [← hac, ← hb0a]
      rfl
    have hb0sp : b0.state_province = sp := by
      rw [← hasp, ← hb0a]
      rfl
    have hq0 : q b0 = true := by
      simp [hq, hb0c, hb0sp]
    have hb0f : b0 ∈ base.filter q := List.mem_filter.mpr ⟨hb0, hq0⟩
    have hS1 : 1 ≤ S := by
      have hle := List.le_sum_of_mem
        (List.mem_map.mpr ⟨b0, hb0f, rfl⟩ :
          b0.brewery_count ∈ (base.filter q).map (·.brewery_count))
      have hcp := aggBase_count_pos hb0
      omega
    set xs := (base.filter q).map (fun b => ((b.brewery_count : Rat) / (S : Rat)) * 100)
      with hxs
    have hxs_sum : xs.sum = 100 := by
      have h1 : xs = (base.filter q).map
          (fun b => ((b.brewery_count : Rat)) * (100 / (S : Rat))) := by
        rw [hxs]
        apply List.map_congr_left
        intro b _
        ring
      rw [h1, List.sum_map_mul_right]
      have h2 : (((base.filter q).map (fun b => ((b.brewery_count : Rat))))).sum
          = (S : Rat) := by
        rw [hSdef, Nat.cast_list_sum, List.map_map]
        rfl
      rw [h2]
      have hSne : (S : Rat) ≠ 0 := Nat.cast_ne_zero.mpr (by omega)
      field_simp
    rw [hsum, hmapeq, hlen]
    have hnear := sum_map_roundHalfUp2_near xs
    rw [hxs_sum] at hnear
    have hlen2 : xs.length = (base.filter q).length := by
      rw [hxs, List.length_map]
    rw [hlen2] at hnear
    exact hnear

/-- Curated rows for the aggregation witnesses: two rows of one
location with different categories. -/
def cw1 : CuratedBrewery :=
  { mkCurated (some "a") 0 with
    country_normalized := "US",
    state_province_normalized := "CA",
    brewery_type_normalized := "micro",
    has_coordinates := true }

def cw2 : CuratedBrewery :=
  { mkCurated (some "b") 0 with
    country_normalized := "US",
    state_province_normalized := "CA",
    brewery_type_normalized := "brewpub",
    has_contact_info := true }

def demoRowsC7 : List CuratedBrewery := [cw1, cw2]

/-- Witness for C7: a concrete two-category location; its percentage
column sums to 100 within the rounding tolerance. -/
theorem C7_percentage_of_location_witness :
    (∃ a ∈ aggregate_by_type_and_location demoRowsC7,
      a.country = "US" ∧ a.state_province = "CA")
    ∧ |((locGroup demoRowsC7 "US" "CA").map (·.percentage_of_location)).sum - 100|
        ≤ ((locGroup demoRowsC7 "US" "CA").length : Rat) / 200 :=
  ⟨by decide, (C7_percentage_of_location demoRowsC7).2 "US" "CA" (by decide)⟩

/-- C8.  Every row's `data_quality_score` equals
`(with_coordinates + with_contact_info) / (2 × brewery_count) × 100`
rounded half-up to 2 decimals; both flagged counts are at most the row
count, and both the quality score and the percentage column lie in
[0, 100]. -/
theorem C8_data_quality_score (rows : List CuratedBrewery) :
    ∀ a ∈ aggregate_by_type_and_location rows,
      a.data_quality_score
        = roundHalfUp2 ((((a.with_coordinates : Rat) + (a.with_contact_info : Rat))
            / ((a.brewery_count : Rat) * 2)) * 100)
      ∧ a.with_coordinates ≤ a.brewery_count
      ∧ a.with_contact_info ≤ a.brewery_count
      ∧ 0 ≤ a.data_quality_score ∧ a.data_quality_score ≤ 100
      ∧ 0 ≤ a.percentage_of_location ∧ a.percentage_of_location ≤ 100 := by
  intro a ha
  obtain ⟨b, hb, hba⟩ := agg_mem.mp ha
  have hwc := (aggBase_counts_le hb).1
  have hwi := (aggBase_counts_le hb).2
  have hcp := aggBase_count_pos hb
  have hlocle := aggBase_le_locCountSum hb
  subst hba
  have hcpos : (0 : Rat) < (b.brewery_count : Rat) := by
    exact_mod_cast Nat.lt_of_lt_of_le Nat.zero_lt_one hcp
  refine ⟨rfl, hwc, hwi, ?_, ?_, ?_, ?_⟩
  · apply roundHalfUp2_nonneg
    positivity
  · apply roundHalfUp2_le_100
    have hnum : ((b.with_coordinates : Rat) + (b.with_contact_info : Rat))
        ≤ (b.brewery_count : Rat) * 2 := by
      have : b.with_coordinates + b.with_contact_info ≤ b.brewery_count * 2 := by omega
      exact_mod_cast this
    have hden : (0 : Rat) < (b.brewery_count : Rat) * 2 := by linarith
    have hratio := (div_le_one hden).mpr hnum
    linarith
  · apply roundHalfUp2_nonneg
    positivity
  · apply roundHalfUp2_le_100
    have hSpos : (0 : Rat)
        < (locCountSum (aggBase rows) b.country b.state_province : Rat) := by
      have h1 : 1 ≤ locCountSum (aggBase rows) b.country b.state_province := by omega
      exact_mod_cast Nat.lt_of_lt_of_le Nat.zero_lt_one h1
    have hnum : ((b.brewery_count : Rat))
        ≤ (locCountSum (aggBase rows) b.country b.state_province : Rat) := by
      exact_mod_cast hlocle
    have hratio := (div_le_one hSpos).mpr hnum
    linarith

instance : Inhabited TypeLocationAgg :=
  ⟨{ country := "", state_province := "", brewery_type := "",
     brewery_count := 0, with_coordinates := 0, with_contact_info := 0,
     unique_breweries := 0, percentage_of_location := 0,
     data_quality_score := 0 }⟩

lemma headI_mem_of_ne_nil {α : Type} [Inhabited α] {l : List α} (h : l ≠ []) :
    l.headI ∈ l := by
  cases l with
  | nil => exact absurd rfl h
  | cons a t => exact List.mem_cons_self a t

/-- Witness for C8 at a concrete one-row aggregation. -/
theorem C8_data_quality_score_witness :
    (aggregate_by_type_and_location [cw1]).headI
        ∈ aggregate_by_type_and_location [cw1]
    ∧ 0 ≤ ((aggregate_by_type_and_location [cw1]).headI).data_quality_score
    ∧ ((aggregate_by_type_and_location [cw1]).headI).data_quality_score ≤ 100
    ∧ 0 ≤ ((aggregate_by_type_and_location [cw1]).headI).percentage_of_location
    ∧ ((aggregate_by_type_and_location [cw1]).headI).percentage_of_location ≤ 100 := by
  have hne : aggregate_by_type_and_location [cw1] ≠ [] := by decide
  have hmem := headI_mem_of_ne_nil hne
  have h := C8_data_quality_score [cw1] _ hmem
  exact ⟨hmem, h.2.2.2.1, h.2.2.2.2.1, h.2.2.2.2.2.1, h.2.2.2.2.2.2⟩

/-! ## Bronze persistence (`ingest_breweries`) and the storage adapter
(`GcsStorage`) -/

/-- The SDK client obtained from `storage.Client()`; `opsOk` models
whether its blob operations succeed or raise. -/
structure GcsClient where
  opsOk : Bool
deriving DecidableEq

/-- The storage adapter state: `enabled` and the client, as set by
`GcsStorage.__init__`. -/
structure GcsStorage where
  enabled : Bool
  client : Option GcsClient
deriving DecidableEq

/-- `GcsStorage.__init__`: starts disabled; returns early (still
disabled) when the library is unavailable or the credentials file does
not exist; attempts client construction, enabling only on success and
swallowing any construction failure. -/
def GcsStorage.init (gcsAvailable credentialsExist : Bool)
    (clientResult : Option GcsClient) : GcsStorage :=
  if !gcsAvailable then { enabled := false, client := none }
  else if !credentialsExist then { enabled := false, client := none }
  else
    match clientResult with
    | some c => { enabled := true, client := some c }
    | none => { enabled := false, client := none }

/-- `GcsStorage.is_enabled`. -/
def GcsStorage.is_enabled (g : GcsStorage) : Bool := g.enabled

/-- Metadata sidecar written by `ingest_breweries`. -/
structure IngestMetadata where
  execution_date : String
  timestamp : String
  record_count : Nat
  output_file : String
  gcs_enabled : Bool
  gcs_bucket : Option String
deriving DecidableEq

/-- Contents persisted by the ingestion step: the raw JSON batch or the
metadata sidecar. -/
inductive FileContent where
  | batch (records : List RawBrewery)
  | meta (m : IngestMetadata)
deriving DecidableEq

/-- Local filesystem state: directories and files (newest entry
first; a later write of the same path shadows an earlier one). -/
structure FileSystem where
  dirs : List String
  files : List (String × FileContent)
deriving DecidableEq

/-- `Path.mkdir(parents=True, exist_ok=True)`. -/
def mkdirP (fs : FileSystem) (dir : String) : FileSystem :=
  if dir ∈ fs.dirs then fs else { fs with dirs := dir :: fs.dirs }

/-- `open(path, "w")` followed by a full write. -/
def writeFile (fs : FileSystem) (path : String) (content : FileContent) : FileSystem :=
  { fs with files := (path, content) :: fs.files }

/-- The object store: (bucket, blob path, blob content) triples. -/
abbrev ObjectStore := List (String × String × FileContent)

/-- `GcsStorage.save_json_to_gcs`: no-op returning `False` when
disabled; uploads the JSON blob under `layer_name/file_name` and
returns `True` on success; returns `False` when the upload raises. -/
def GcsStorage.save_json_to_gcs (g : GcsStorage) (store : ObjectStore)
    (data : FileContent) (bucket_name layer_name file_name : String) :
    ObjectStore × Bool :=
  if !g.is_enabled then (store, false)
  else
    match g.client with
    | none => (store, false)
    | some c =>
      if c.opsOk then
        ((bucket_name, layer_name ++ "/" ++ file_name, data) :: store, true)
      else (store, false)

/-- `GcsStorage.save_parquet_to_gcs`: no-op returning `False` when
disabled; uploads every `*.parquet` file under `local_path` to
`layer_name/folder_name/` followed by the file's path relative to
`local_path`; returns `False` when the upload raises. -/
def GcsStorage.save_parquet_to_gcs (g : GcsStorage) (store : ObjectStore)
    (fs : FileSystem) (local_path bucket_name layer_name folder_name : String) :
    ObjectStore × Bool :=
  if !g.is_enabled then (store, false)
  else
    match g.client with
    | none => (store, false)
    | some c =>
      if c.opsOk then
        ((fs.files.filter
            (fun f => local_path.isPrefixOf f.1 && f.1.endsWith ".parquet")).foldl
          (fun st f =>
            (bucket_name,
              layer_name ++ "/" ++ folder_name ++ "/"
                ++ f.1.drop (local_path.length + 1), f.2) :: st)
          store, true)
      else (store, false)

/-- `GcsStorage.clear_bucket_layer`: no-op returning `False` when
disabled; deletes every blob of the bucket whose path starts with the
layer name; returns `False` when deletion raises. -/
def GcsStorage.clear_bucket_layer (g : GcsStorage) (store : ObjectStore)
    (bucket_name layer_name : String) : ObjectStore × Bool :=
  if !g.is_enabled then (store, false)
  else
    match g.client with
    | none => (store, false)
    | some c =>
      if c.opsOk then
        (store.filter
          (fun b => !(b.1 == bucket_name && layer_name.isPrefixOf b.2.1)), true)
      else (store, false)

/-- The error `ingest_breweries` raises on an empty fetch
(`ValueError("No data received from API")`, the spec's
`NoDataError`). -/
inductive IngestError where
  | noData
deriving DecidableEq

/-- `ingest_breweries`: raise the no-data error on an empty batch
(before any directory or file is created); otherwise create the date
partition, write the batch file, mirror it to the object store when the
adapter is enabled (best effort), and write the metadata sidecar. -/
def ingest_breweries (fetched : List RawBrewery)
    (output_path exec_date timestamp : String)
    (gcs : Option (GcsStorage × String)) (fs : FileSystem) (store : ObjectStore) :
    FileSystem × ObjectStore × Except IngestError String :=
  if fetched.isEmpty then (fs, store, Except.error IngestError.noData)
  else
    let output_dir := output_path ++ "/date=" ++ exec_date
    let fs1 := mkdirP fs output_dir
    let output_file := output_dir ++ "/breweries_" ++ timestamp ++ ".json"
    let fs2 := writeFile fs1 output_file (FileContent.batch fetched)
    let storeRes : ObjectStore × Bool :=
      match gcs with
      | some (g, bucket) =>
        if g.is_enabled then
          g.save_json_to_gcs store (FileContent.batch fetched) bucket "bronze"
            (exec_date ++ "/breweries_" ++ timestamp ++ ".json")
        else (store, false)
      | none => (store, false)
    let md : IngestMetadata :=
      { execution_date := exec_date, timestamp := timestamp,
        record_count := fetched.length, output_file := output_file,
        gcs_enabled := match gcs with | some (g, _) => g.is_enabled | none => false,
        gcs_bucket := match gcs with
          | some (g, b) => if g.is_enabled then some b else none
          | none => none }
    let fs3 := writeFile fs2 (output_dir ++ "/metadata_" ++ timestamp ++ ".json")
      (FileContent.meta md)
    (fs3, storeRes.1, Except.ok output_file)

/-- C6.  Ingesting an empty fetched batch raises the no-data error and
writes nothing: neither the data file nor the metadata sidecar is
created, the directory state and the object store are unchanged. -/
theorem C6_empty_fetch_raises_no_data (fetched : List RawBrewery)
    (output_path exec_date timestamp : String) (gcs : Option (GcsStorage × String))
    (fs : FileSystem) (store : ObjectStore) (h : fetched = []) :
    ingest_breweries fetched output_path exec_date timestamp gcs fs store
      = (fs, store, Except.error IngestError.noData) := by
  subst h
  rfl

/-- Witness for C6 at concrete inputs. -/
theorem C6_empty_fetch_raises_no_data_witness :
    ([] : List RawBrewery) = []
    ∧ ingest_breweries [] "out" "2024-01-01" "t1" none ⟨[], []⟩ []
        = (⟨[], []⟩, [], Except.error IngestError.noData) :=
  ⟨rfl, C6_empty_fetch_raises_no_data [] "out" "2024-01-01" "t1" none ⟨[], []⟩ [] rfl⟩

/-- C9.  The storage adapter is fail-open: construction is total and
never raises (it is a function into `GcsStorage`); any construction
failure — library absent, credentials file absent, or client
construction error — leaves the adapter permanently disabled (its state
is immutable, so `is_enabled` stays false for its lifetime); on a
disabled adapter every mutating call is a no-op returning failure
without raising; and for a non-empty batch the ingestion's local write
and return value succeed for every adapter state, so mirror failure
never propagates to or blocks the primary local write path. -/
theorem C9_gcs_fail_open :
    (∀ (avail creds : Bool) (clientResult : Option GcsClient),
      ¬(avail = true ∧ creds = true ∧ ∃ c, clientResult = some c) →
      (GcsStorage.init avail creds clientResult).is_enabled = false)
    ∧ (∀ g : GcsStorage, g.is_enabled = false →
        ∀ (store : ObjectStore) (data : FileContent) (fs : FileSystem)
          (b l f p fo : String),
          g.save_json_to_gcs store data b l f = (store, false)
          ∧ g.save_parquet_to_gcs store fs p b l fo = (store, false)
          ∧ g.clear_bucket_layer store b l = (store, false))
    ∧ (∀ (fetched : List RawBrewery) (output_path exec_date timestamp : String)
        (gcs : Option (GcsStorage × String)) (fs : FileSystem) (store : ObjectStore),
        fetched ≠ [] →
        (ingest_breweries fetched output_path exec_date timestamp gcs fs store).2.2
          = Except.ok (output_path ++ "/date=" ++ exec_date ++ "/breweries_"
              ++ timestamp ++ ".json")
        ∧ (output_path ++ "/date=" ++ exec_date ++ "/breweries_" ++ timestamp
              ++ ".json", FileContent.batch fetched)
            ∈ (ingest_breweries fetched output_path exec_date timestamp
                gcs fs store).1.files) := by
  refine ⟨?_, ?_, ?_⟩
  · intro avail creds clientResult h
    cases avail <;> cases creds <;> cases clientResult <;>
      simp_all [GcsStorage.init, GcsStorage.is_enabled]
  · intro g hg store data fs b l f p fo
    refine ⟨?_, ?_, ?_⟩ <;>
      simp [GcsStorage.save_json_to_gcs, GcsStorage.save_parquet_to_gcs,
        GcsStorage.clear_bucket_layer, hg]
  · intro fetched output_path exec_date timestamp gcs fs store hne
    have hemp : fetched.isEmpty = false := by
      simpa using hne
    constructor
    · simp [ingest_breweries, hemp]
    · simp [ingest_breweries, hemp, writeFile, mkdirP]

/-- Witness for C9 at concrete states: a failed construction (missing
library), the resulting disabled adapter's three no-op calls, and a
concrete non-empty ingestion whose local write succeeds with no
adapter present. -/
theorem C9_gcs_fail_open_witness :
    (GcsStorage.init false true none).is_enabled = false
    ∧ ((GcsStorage.mk false none).save_json_to_gcs [] (FileContent.batch [])
          "b" "bronze" "f" = ([], false)
        ∧ (GcsStorage.mk false none).save_parquet_to_gcs [] ⟨[], []⟩
            "p" "b" "silver" "fo" = ([], false)
        ∧ (GcsStorage.mk false none).clear_bucket_layer [] "b" "bronze"
            = ([], false))
    ∧ (([rC10] : List RawBrewery) ≠ []
        ∧ (ingest_breweries [rC10] "o" "d" "t" none ⟨[], []⟩ []).2.2
            = Except.ok "o/date=d/breweries_t.json"
        ∧ ("o/date=d/breweries_t.json", FileContent.batch [rC10])
            ∈ (ingest_breweries [rC10] "o" "d" "t" none ⟨[], []⟩ []).1.files) := by
  have h3 := C9_gcs_fail_open.2.2 [rC10] "o" "d" "t" none ⟨[], []⟩ [] (by decide)
  refine ⟨C9_gcs_fail_open.1 false true none (by simp), ?_, by decide, ?_, ?_⟩
  · exact C9_gcs_fail_open.2.1 ⟨false, none⟩ rfl [] (FileContent.batch [])
      ⟨[], []⟩ "b" "bronze" "f" "p" "fo"
  · exact h3.1
  · exact h3.2
